import Mathlib

/-!
Shallow embedding of `logfile.go` (junghoKor/go-logfile): an asynchronous
daily-rotating log writer.  Wall-clock readings, filesystem outcomes and the
Go runtime primitives the code relies on (buffered channels, `defer`,
`sync.WaitGroup`) are made explicit parameters or small models; everything
else is translated directly from the source.
-/

namespace LogFile

/-! ### Wall-clock instants and Go `time.Format` layouts -/

/-- A wall-clock instant, carrying exactly the fields the `time.Time.Format`
calls in the source read. -/
structure DateTime where
  year : Nat
  month : Nat
  day : Nat
  hour : Nat
  minute : Nat
  second : Nat
deriving DecidableEq, Repr

/-- Two-digit zero padding, the Go layout components `01`, `02`, `15`, `04`, `05`. -/
def pad2 (n : Nat) : String := if n < 10 then "0" ++ toString n else toString n

/-- Four-digit zero padding, the Go layout component `2006`. -/
def pad4 (n : Nat) : String :=
  if n < 10 then "000" ++ toString n
  else if n < 100 then "00" ++ toString n
  else if n < 1000 then "0" ++ toString n
  else toString n

/-- `t.Format("20060102")`, the `YYYYMMDD` date string. -/
def dateStr8 (t : DateTime) : String := pad4 t.year ++ pad2 t.month ++ pad2 t.day

/-- `now.Format("2006-01-02 15:04:05")`, the per-line timestamp. -/
def timestampStr (t : DateTime) : String :=
  pad4 t.year ++ "-" ++ pad2 t.month ++ "-" ++ pad2 t.day ++ " " ++
    pad2 t.hour ++ ":" ++ pad2 t.minute ++ ":" ++ pad2 t.second

/-- `fmt.Sprintf("[%s] %s\n", timestamp, msg)`: the exact bytes `runWorker`
hands to `WriteString` for one message. -/
def formatLine (ts msg : String) : String := "[" ++ ts ++ "] " ++ msg ++ "\n"

/-- `fmt.Sprintf("%s_%s.txt", l.filePrefix, dateStr)`: the file name built by
`openFile`. -/
def mkFileName (pfx dateStr : String) : String := pfx ++ "_" ++ dateStr ++ ".txt"

/-! ### Go string primitives used by `cleanOldLogs`, on char lists -/

/-- Go's byte-wise lexicographic string order (the `<` in
`fileDateStr < cutoffStr`); on the ASCII strings involved here, byte order
coincides with char order. -/
def goStrLt : List Char → List Char → Bool
  | [], [] => false
  | [], _ :: _ => true
  | _ :: _, [] => false
  | a :: as, b :: bs =>
    if a.toNat < b.toNat then true
    else if b.toNat < a.toNat then false
    else goStrLt as bs

/-- `strings.HasPrefix s p`. -/
def hasPrefixGo : List Char → List Char → Bool
  | _, [] => true
  | [], _ :: _ => false
  | a :: as, b :: bs => a == b && hasPrefixGo as bs

/-- `strings.HasSuffix s p`. -/
def hasSuffixGo (s p : List Char) : Bool := hasPrefixGo s.reverse p.reverse

/-! ### The retention sweep: `cleanOldLogs` -/

/-- One `os.DirEntry` as `cleanOldLogs` sees it. -/
structure DirEntry where
  name : String
  isDir : Bool
deriving DecidableEq, Repr

/-- The per-entry decision of the `cleanOldLogs` loop body: skip directories,
require `filePrefix + "_"` as prefix and `".txt"` as suffix, require
`len(name) >= prefixLen+8+4`, slice `name[prefixLen : prefixLen+8]`, and
delete when that slice is lexicographically below `cutoffStr`. -/
def removesEntry (pfx cutoffStr : String) (e : DirEntry) : Bool :=
  !e.isDir &&
  hasPrefixGo e.name.data (pfx ++ "_").data &&
  hasSuffixGo e.name.data ".txt".data &&
  decide (pfx.data.length + 1 + 8 + 4 ≤ e.name.data.length) &&
  goStrLt ((e.name.data.drop (pfx.data.length + 1)).take 8) cutoffStr.data

/-- `cleanOldLogs`: no-op when `retentionDays <= 0` or when `os.ReadDir`
fails (`readDirOk = false`); otherwise returns the names passed to
`os.Remove`, in directory order.  `cutoffStr` stands for
`time.Now().AddDate(0, 0, -retentionDays).Format("20060102")`, supplied by
the environment together with the directory listing. -/
def cleanOldLogs (retentionDays : Int) (pfx cutoffStr : String) (readDirOk : Bool)
    (entries : List DirEntry) : List String :=
  if retentionDays ≤ 0 then []
  else if readDirOk = false then []
  else (entries.filter (removesEntry pfx cutoffStr)).map DirEntry.name

/-- A decimal digit character `'0'..'9'`. -/
def isDigitCh (c : Char) : Bool := 48 ≤ c.toNat && c.toNat ≤ 57

/-- The file-name shape the spec's sweep description filters on, written from
the spec's words to compare with the code's check: exactly
`{filePrefix}_{8 decimal digits}.txt`, nothing between the date and the
extension. -/
def specShape (pfx name : String) : Bool :=
  let n := name.data
  let p := pfx.data
  (n.take p.length == p) &&
  ((n.drop p.length).take 1 == ['_']) &&
  (((n.drop (p.length + 1)).take 8).all isDigitCh) &&
  ((n.drop (p.length + 1)).length == 12) &&
  ((n.drop (p.length + 1)).drop 8 == ".txt".data)

/-- Numeric reading of a digit string, most significant digit first. -/
def natOfDigits : List Char → Nat
  | [] => 0
  | c :: cs => (c.toNat - 48) * 10 ^ cs.length + natOfDigits cs

/-! ### The worker: state, rotation, append, flush, drain -/

/-- The worker-owned fields of `internalLogger` plus the filesystem it writes.
`fileOpen` models `l.file` (`none` = nil, otherwise the open file's name);
`buffer` models the lines sitting unflushed in `l.writer`; `files` models the
on-disk contents, as an association list in file-creation order.  (In every
state reachable from construction, `buffer = []` whenever `fileOpen = none`:
the rotation path flushes before closing and a failed open leaves the fresh
writer empty.) -/
structure WState where
  fileOpen : Option String
  currentDate : String
  buffer : List String
  files : List (String × List String)
deriving DecidableEq, Repr

/-- Append `lines` to file `n`, creating it if absent (`O_APPEND | O_CREATE`:
an existing file is appended to, never truncated). -/
def fsAppend (fs : List (String × List String)) (n : String) (lines : List String) :
    List (String × List String) :=
  match fs with
  | [] => [(n, lines)]
  | (m, c) :: rest =>
    if m = n then (m, c ++ lines) :: rest else (m, c) :: fsAppend rest n lines

/-- A file's contents (`[]` when the file does not exist). -/
def fsRead (fs : List (String × List String)) (n : String) : List String :=
  match fs with
  | [] => []
  | (m, c) :: rest => if m = n then c else fsRead rest n

/-- `l.writer.Flush()`: the buffered lines reach the open file.  With no open
file the flush hits an already-closed handle and moves nothing (and in
reachable states the buffer is empty then anyway). -/
def flushBuf (st : WState) : WState :=
  match st.fileOpen with
  | some n => { st with buffer := [], files := fsAppend st.files n st.buffer }
  | none => st

/-- `openFile(t)` on success: opens (creating if needed) `pfx_YYYYMMDD.txt`
for the date of `t`, installs a fresh empty `bufio.Writer`, and sets
`currentDate` to that date. -/
def openFileW (pfx : String) (st : WState) (t : DateTime) : WState :=
  let n := mkFileName pfx (dateStr8 t)
  { st with fileOpen := some n, buffer := [], currentDate := dateStr8 t,
            files := fsAppend st.files n [] }

/-- What the environment decides for one arriving message: the wall clock at
delivery and whether `os.OpenFile` would succeed were it called. -/
structure MsgEnv where
  now : DateTime
  openOk : Bool
deriving DecidableEq, Repr

/-- Observable side effects of one worker iteration: the console report of a
failed open, the `UNSAVED LOG` report of the dropped message, and the
`go l.cleanOldLogs()` launched after a successful rotation. -/
inductive WAction where
  | openFailReport
  | unsavedReport (msg : String)
  | sweepAsync
deriving DecidableEq, Repr

/-- One `msg, ok := <-l.msgChan` iteration of `runWorker` with `ok = true`:
the rotation-and-retry check followed by the append of the formatted line.
If no file is open or the date changed: flush, close, and set `l.file = nil`;
then a single open attempt.  On open failure the iteration reports and
`continue`s — the message is never written.  On success the new file is
installed, `currentDate` is updated, the retention sweep is spawned
asynchronously, and the line is appended.  Otherwise the line is appended to
the already-open file. -/
def runWorkerStep (pfx : String) (st : WState) (env : MsgEnv) (msg : String) :
    WState × List WAction :=
  let today := dateStr8 env.now
  if st.fileOpen = none ∨ today ≠ st.currentDate then
    let st1 := { flushBuf st with fileOpen := none }
    if env.openOk then
      let st2 := openFileW pfx st1 env.now
      ({ st2 with buffer := st2.buffer ++ [formatLine (timestampStr env.now) msg] },
        [WAction.sweepAsync])
    else
      (st1, [WAction.openFailReport, WAction.unsavedReport msg])
  else
    ({ st with buffer := st.buffer ++ [formatLine (timestampStr env.now) msg] }, [])

/-- The `case <-ticker.C` arm: flush when the buffer holds bytes. -/
def tickStep (st : WState) : WState :=
  if st.buffer = [] then st else flushBuf st

/-- The drain: after `close(l.msgChan)` the worker keeps receiving the
already-enqueued `(env, msg)` pairs in FIFO order until the closed channel
reports `ok = false` and the loop returns. -/
def drainRun (pfx : String) : WState → List (MsgEnv × String) → WState × List WAction
  | st, [] => (st, [])
  | st, (e, m) :: rest =>
    let r1 := runWorkerStep pfx st e m
    let r2 := drainRun pfx r1.1 rest
    (r2.1, r1.2 ++ r2.2)

/-- The tail of `closeFn` after `wg.Wait()` returns: the final
`writer.Flush()` and `file.Close()`. -/
def closeFinal (st : WState) : WState :=
  { flushBuf st with fileOpen := none }

/-! ### The bounded queue: Go buffered-channel semantics

`l.msgChan` is `make(chan string, 1000)`; the send/receive/close behavior
below is the Go language semantics the source relies on: a send panics on a
closed channel, completes when a buffer slot is free, and otherwise leaves
the caller blocked; a receive takes the oldest buffered element. -/

/-- A Go buffered channel of strings. -/
structure GoChan where
  cap : Nat
  buf : List String
  closed : Bool
deriving DecidableEq, Repr

/-- The outcome of evaluating `ch <- m` once. -/
inductive SendResult where
  | panicked
  | blocked
  | sent (ch : GoChan)
deriving DecidableEq, Repr

/-- One evaluation of `ch <- m` (the body of the returned `logFn` after
`fmt.Sprintf` rendered `m`). -/
def chanSend (ch : GoChan) (m : String) : SendResult :=
  if ch.closed then SendResult.panicked
  else if ch.buf.length < ch.cap then SendResult.sent { ch with buf := ch.buf ++ [m] }
  else SendResult.blocked

/-- A receive `<-ch` when the buffer is non-empty: the oldest element leaves
the channel. -/
def chanRecv (ch : GoChan) : Option (String × GoChan) :=
  match ch.buf with
  | [] => none
  | m :: rest => some (m, { ch with buf := rest })

/-- `close(l.msgChan)`, the first statement of `closeFn`. -/
def chanClose (ch : GoChan) : GoChan := { ch with closed := true }

/-- `make(chan string, 1000)` in `newLogFunc`. -/
def msgChanInit : GoChan := { cap := 1000, buf := [], closed := false }

/-! ### The factory: `newLogFunc` -/

/-- Environment for one `newLogFunc` call: whether `os.MkdirAll` and the
initial `openFile(time.Now())` succeed, and the construction-time clock. -/
structure InitEnv where
  mkdirOk : Bool
  openOk : Bool
  now : DateTime
deriving DecidableEq, Repr

/-- A successfully constructed stream: its channel, its worker state, and the
names removed by the synchronous construction-time sweep.  `emit` is
`chanSend` on `msgChan`; `shutdown` is `chanClose` + `drainRun` +
`closeFinal`. -/
structure LogStream where
  msgChan : GoChan
  st : WState
  sweepDeleted : List String
deriving DecidableEq, Repr

/-- `newLogFunc(dirPath, filePrefix, retentionDays)`: fail-fast factory.
`panic(...)` is modelled as `Except.error` with the panic message's tag.
Order as in the source: `os.MkdirAll` (panic on failure), the synchronous
`cleanOldLogs`, `openFile(time.Now())` (panic on failure), then the worker
starts and the emit/close closures are returned. -/
def newLogFunc (env : InitEnv) (pfx : String) (retentionDays : Int)
    (cutoffStr : String) (readDirOk : Bool) (entries : List DirEntry) :
    Except String LogStream :=
  if env.mkdirOk = false then Except.error "LogInit: cannot create folder"
  else
    let deleted := cleanOldLogs retentionDays pfx cutoffStr readDirOk entries
    if env.openOk = false then Except.error "LogInit: cannot create file"
    else Except.ok
      { msgChan := msgChanInit,
        st := openFileW pfx
          { fileOpen := none, currentDate := "", buffer := [], files := [] } env.now,
        sweepDeleted := deleted }

/-! ### Worker exit path: `defer` and the WaitGroup -/

/-- The deferred calls registered at the top of `runWorker`, tagged by what
they do: `defer l.wg.Done()` first, then `defer ticker.Stop()`, then the
recovery closure (which flushes and syncs only when it recovers a panic). -/
inductive ExitAction where
  | wgDone
  | tickerStop
  | recoverFlushSync
deriving DecidableEq, Repr

/-- Go runs deferred calls in reverse registration order on every exit path,
normal return or panic; the recovery closure always runs, and performs the
best-effort flush + sync exactly when `recover()` reports a panic. -/
def runWorkerExitPath (panicked : Bool) : List ExitAction :=
  (if panicked then [ExitAction.recoverFlushSync] else []) ++
    [ExitAction.tickerStop, ExitAction.wgDone]

/-- How many `wg.Done()` calls an exit path performs. -/
def countDone (as : List ExitAction) : Nat :=
  (as.filter (fun a => a == ExitAction.wgDone)).length

/-- `sync.WaitGroup`: `wg.Wait()` returns iff every `wg.Add(1)` has been
matched by a `wg.Done()`. -/
def wgWaitReturns (adds dones : Nat) : Bool := adds ≤ dones

/-! ### Supporting lemmas -/

lemma fsRead_fsAppend_self (fs : List (String × List String)) (n : String)
    (ls : List String) : fsRead (fsAppend fs n ls) n = fsRead fs n ++ ls := by
  induction fs with
  | nil => simp [fsAppend, fsRead]
  | cons p rest ih =>
    obtain ⟨m, c⟩ := p
    by_cases h : m = n
    · subst h; simp [fsAppend, fsRead]
    · simp [fsAppend, fsRead, h, ih]

lemma fsRead_fsAppend_ne (fs : List (String × List String)) (n m : String)
    (ls : List String) (h : m ≠ n) : fsRead (fsAppend fs n ls) m = fsRead fs m := by
  induction fs with
  | nil => simp [fsAppend, fsRead, Ne.symm h]
  | cons p rest ih =>
    obtain ⟨k, c⟩ := p
    by_cases hk : k = n
    · subst hk
      simp [fsAppend, fsRead, Ne.symm h]
    · simp only [fsAppend, if_neg hk]
      by_cases hkm : k = m
      · subst hkm; simp [fsRead]
      · simp [fsRead, hkm, ih]

lemma hasPrefixGo_append (p r : List Char) : hasPrefixGo (p ++ r) p = true := by
  induction p with
  | nil => simp [hasPrefixGo]
  | cons a as ih => simp [hasPrefixGo, ih]

lemma hasSuffixGo_append (r p : List Char) : hasSuffixGo (r ++ p) p = true := by
  unfold hasSuffixGo
  rw [List.reverse_append]
  exact hasPrefixGo_append p.reverse r.reverse

lemma natOfDigits_lt (cs : List Char) (h : cs.all isDigitCh = true) :
    natOfDigits cs < 10 ^ cs.length := by
  induction cs with
  | nil => simp [natOfDigits]
  | cons c cs ih =>
    rw [List.all_cons, Bool.and_eq_true] at h
    have h9 : c.toNat - 48 ≤ 9 := by
      have hc := h.1
      simp only [isDigitCh, Bool.and_eq_true, decide_eq_true_eq] at hc
      omega
    have hrec := ih h.2
    have hmul : (c.toNat - 48) * 10 ^ cs.length ≤ 9 * 10 ^ cs.length :=
      Nat.mul_le_mul_right _ h9
    simp only [natOfDigits, List.length_cons, pow_succ]
    omega

/-- On equal-length digit strings, Go's lexicographic `<` agrees with the
numeric order of the decimal readings — the fixed-width `YYYYMMDD` argument
of the spec. -/
lemma goStrLt_iff_natOfDigits_lt :
    ∀ ds cs : List Char, ds.length = cs.length →
      ds.all isDigitCh = true → cs.all isDigitCh = true →
      (goStrLt ds cs = true ↔ natOfDigits ds < natOfDigits cs)
  | [], [], _, _, _ => by simp [goStrLt, natOfDigits]
  | [], _ :: _, h, _, _ => by simp at h
  | _ :: _, [], h, _, _ => by simp at h
  | d :: ds, c :: cs, hlen, hd, hc => by
    rw [List.all_cons, Bool.and_eq_true] at hd hc
    have hd1 := hd.1
    have hc1 := hc.1
    simp only [isDigitCh, Bool.and_eq_true, decide_eq_true_eq] at hd1 hc1
    simp only [List.length_cons, Nat.succ.injEq] at hlen
    have hds : natOfDigits ds < 10 ^ cs.length := by
      have := natOfDigits_lt ds hd.2
      rwa [hlen] at this
    have hcs : natOfDigits cs < 10 ^ cs.length := natOfDigits_lt cs hc.2
    by_cases h1 : d.toNat < c.toNat
    · have hmul : (d.toNat - 48 + 1) * 10 ^ cs.length ≤
          (c.toNat - 48) * 10 ^ cs.length := Nat.mul_le_mul_right _ (by omega)
      rw [add_one_mul] at hmul
      have key : natOfDigits (d :: ds) < natOfDigits (c :: cs) := by
        simp only [natOfDigits]
        rw [hlen]
        omega
      simp [goStrLt, h1, key]
    · by_cases h2 : c.toNat < d.toNat
      · have hmul : (c.toNat - 48 + 1) * 10 ^ cs.length ≤
            (d.toNat - 48) * 10 ^ cs.length := Nat.mul_le_mul_right _ (by omega)
        rw [add_one_mul] at hmul
        have key : ¬ natOfDigits (d :: ds) < natOfDigits (c :: cs) := by
          simp only [natOfDigits]
          rw [hlen]
          omega
        simp [goStrLt, h1, h2, key]
      · have heq : d.toNat = c.toNat := by omega
        have hih := goStrLt_iff_natOfDigits_lt ds cs hlen hd.2 hc.2
        simp only [goStrLt, if_neg h1, if_neg h2]
        rw [hih]
        simp only [natOfDigits]
        rw [hlen, heq]
        omega

/-- With a file open and every message arriving on its date, the drain never
rotates: each iteration only appends the formatted line to the buffer, in
arrival order, with no side effects. -/
lemma drainRun_same_date (pfx : String) :
    ∀ (ps : List (MsgEnv × String)) (st : WState) (n : String),
      st.fileOpen = some n →
      (∀ p ∈ ps, p.1.openOk = true ∧ dateStr8 p.1.now = st.currentDate) →
      drainRun pfx st ps =
        ({ st with
            buffer := st.buffer ++
              ps.map (fun p => formatLine (timestampStr p.1.now) p.2) }, [])
  | [], st, n, hfile, hall => by simp [drainRun]
  | (e, m) :: rest, st, n, hfile, hall => by
    have he := hall (e, m) (List.mem_cons_self _ _)
    have hcond : ¬(st.fileOpen = none ∨ dateStr8 e.now ≠ st.currentDate) := by
      rintro (h | h)
      · rw [hfile] at h
        exact Option.noConfusion h
      · exact h he.2
    have hstep : runWorkerStep pfx st e m =
        ({ st with buffer := st.buffer ++ [formatLine (timestampStr e.now) m] }, []) := by
      simp only [runWorkerStep]
      rw [if_neg hcond]
    have hrest := drainRun_same_date pfx rest
      { st with buffer := st.buffer ++ [formatLine (timestampStr e.now) m] } n hfile
      (fun p hp => hall p (List.mem_cons_of_mem _ hp))
    simp only [drainRun, hstep, hrest]
    simp

/-- **C1.**  Shutdown drain: with `ps` the messages accepted by `emit` before
`shutdown`, in queue (FIFO) order, each paired with its delivery-time clock,
and with no fault during the drain (every clock on the open file's date, so no
reopen is even attempted), after the worker drains and `closeFn` performs the
final flush and close, the output file contains exactly its prior content
followed by the accepted messages as formatted lines, in acceptance order —
and no other file changed. -/
theorem shutdown_drain_writes_exactly_accepted (pfx n : String) (st : WState)
    (ps : List (MsgEnv × String))
    (hfile : st.fileOpen = some n) (hbuf : st.buffer = [])
    (hall : ∀ p ∈ ps, p.1.openOk = true ∧ dateStr8 p.1.now = st.currentDate) :
    fsRead (closeFinal (drainRun pfx st ps).1).files n =
      fsRead st.files n ++ ps.map (fun p => formatLine (timestampStr p.1.now) p.2) ∧
    ∀ m, m ≠ n → fsRead (closeFinal (drainRun pfx st ps).1).files m = fsRead st.files m := by
  rw [drainRun_same_date pfx ps st n hfile hall]
  constructor
  · simp only [closeFinal, flushBuf, hfile, hbuf]
    simp [fsRead_fsAppend_self]
  · intro m hm
    simp only [closeFinal, flushBuf, hfile, hbuf]
    simp [fsRead_fsAppend_ne _ _ _ _ hm]

/-- Witness for C1: two messages drained on the file's date land in the file,
formatted and in order. -/
theorem shutdown_drain_writes_exactly_accepted_witness :
    fsRead (closeFinal (drainRun "AppLog"
        (openFileW "AppLog" ⟨none, "", [], []⟩ ⟨2025, 1, 2, 3, 4, 5⟩)
        [(⟨⟨2025, 1, 2, 3, 4, 5⟩, true⟩, "hello"),
         (⟨⟨2025, 1, 2, 3, 4, 6⟩, true⟩, "world")]).1).files "AppLog_20250102.txt" =
      ["[2025-01-02 03:04:05] hello\n", "[2025-01-02 03:04:06] world\n"] ∧
    fsRead (closeFinal (drainRun "AppLog"
        (openFileW "AppLog" ⟨none, "", [], []⟩ ⟨2025, 1, 2, 3, 4, 5⟩)
        [(⟨⟨2025, 1, 2, 3, 4, 5⟩, true⟩, "hello"),
         (⟨⟨2025, 1, 2, 3, 4, 6⟩, true⟩, "world")]).1).files "CommLog_20250102.txt" = [] := by
  have h := shutdown_drain_writes_exactly_accepted "AppLog" "AppLog_20250102.txt"
    (openFileW "AppLog" ⟨none, "", [], []⟩ ⟨2025, 1, 2, 3, 4, 5⟩)
    [(⟨⟨2025, 1, 2, 3, 4, 5⟩, true⟩, "hello"),
     (⟨⟨2025, 1, 2, 3, 4, 6⟩, true⟩, "world")]
    (by decide) (by decide) (by decide)
  refine ⟨?_, ?_⟩
  · rw [h.1]; decide
  · rw [h.2 "CommLog_20250102.txt" (by decide)]; decide

/-- **C2.**  Open failure during the rotation check: the iteration emits the
non-fatal failure report and the `UNSAVED LOG` report for the in-flight
message, persists nothing of it (the state is exactly the pre-rotation flush
with the handle closed; the buffer gains no line), and returns to the loop
after this one open attempt — no blocking, no retry loop.  Because the handle
stays `none`, the next arriving message re-runs the check, and if its open
succeeds the file for its date is installed. -/
theorem open_failure_drops_message_and_continues (pfx : String) (st : WState)
    (env : MsgEnv) (msg : String)
    (hrot : st.fileOpen = none ∨ dateStr8 env.now ≠ st.currentDate)
    (hfail : env.openOk = false) :
    runWorkerStep pfx st env msg =
      ({ flushBuf st with fileOpen := none },
       [WAction.openFailReport, WAction.unsavedReport msg]) ∧
    (runWorkerStep pfx st env msg).1.files = (flushBuf st).files ∧
    (runWorkerStep pfx st env msg).1.buffer = (flushBuf st).buffer ∧
    ∀ env2 msg2, env2.openOk = true →
      (runWorkerStep pfx (runWorkerStep pfx st env msg).1 env2 msg2).1.fileOpen =
        some (mkFileName pfx (dateStr8 env2.now)) ∧
      (runWorkerStep pfx (runWorkerStep pfx st env msg).1 env2 msg2).1.currentDate =
        dateStr8 env2.now := by
  have hstep : runWorkerStep pfx st env msg =
      ({ flushBuf st with fileOpen := none },
       [WAction.openFailReport, WAction.unsavedReport msg]) := by
    simp only [runWorkerStep]
    rw [if_pos hrot, hfail]
    simp
  refine ⟨hstep, by rw [hstep], by rw [hstep], ?_⟩
  intro env2 msg2 hok2
  rw [hstep]
  simp [runWorkerStep, openFileW, hok2]

/-- Witness for C2: a failed open on a date change drops exactly the one
message and the next message reopens. -/
theorem open_failure_drops_message_and_continues_witness :
    runWorkerStep "AppLog" (openFileW "AppLog" ⟨none, "", [], []⟩ ⟨2025, 1, 2, 3, 4, 5⟩)
        ⟨⟨2025, 1, 3, 0, 0, 1⟩, false⟩ "lost" =
      ({ flushBuf (openFileW "AppLog" ⟨none, "", [], []⟩ ⟨2025, 1, 2, 3, 4, 5⟩) with
          fileOpen := none },
       [WAction.openFailReport, WAction.unsavedReport "lost"]) ∧
    (runWorkerStep "AppLog"
        (runWorkerStep "AppLog" (openFileW "AppLog" ⟨none, "", [], []⟩ ⟨2025, 1, 2, 3, 4, 5⟩)
          ⟨⟨2025, 1, 3, 0, 0, 1⟩, false⟩ "lost").1
        ⟨⟨2025, 1, 3, 0, 0, 2⟩, true⟩ "next").1.fileOpen = some "AppLog_20250103.txt" := by
  have h := open_failure_drops_message_and_continues "AppLog"
    (openFileW "AppLog" ⟨none, "", [], []⟩ ⟨2025, 1, 2, 3, 4, 5⟩)
    ⟨⟨2025, 1, 3, 0, 0, 1⟩, false⟩ "lost" (by decide) (by decide)
  refine ⟨h.1, ?_⟩
  rw [(h.2.2.2 ⟨⟨2025, 1, 3, 0, 0, 2⟩, true⟩ "next" (by decide)).1]
  decide

/-- **C5.**  Rotation: on a message arriving with no open file or a wall-clock
date differing from `currentDate`, the worker flushes and closes the active
file (its buffered lines reach disk, the handle is released), then opens the
file for the current date; on success `currentDate` becomes the new date, the
retention sweep is spawned asynchronously (`go l.cleanOldLogs()`, the
iteration's only emitted action — the worker itself proceeds straight to the
append), and the fresh buffer holds exactly the new message's line. -/
theorem rotation_success_updates_date_and_spawns_sweep (pfx : String) (st : WState)
    (env : MsgEnv) (msg : String)
    (hrot : st.fileOpen = none ∨ dateStr8 env.now ≠ st.currentDate)
    (hok : env.openOk = true) :
    (runWorkerStep pfx st env msg).1.fileOpen =
      some (mkFileName pfx (dateStr8 env.now)) ∧
    (runWorkerStep pfx st env msg).1.currentDate = dateStr8 env.now ∧
    (runWorkerStep pfx st env msg).2 = [WAction.sweepAsync] ∧
    (runWorkerStep pfx st env msg).1.files =
      fsAppend (flushBuf st).files (mkFileName pfx (dateStr8 env.now)) [] ∧
    (runWorkerStep pfx st env msg).1.buffer =
      [formatLine (timestampStr env.now) msg] := by
  simp only [runWorkerStep]
  rw [if_pos hrot, hok]
  simp [openFileW]

/-- Witness for C5: a date change with a healthy filesystem opens the new
day's file and spawns the sweep. -/
theorem rotation_success_updates_date_and_spawns_sweep_witness :
    (runWorkerStep "AppLog" (openFileW "AppLog" ⟨none, "", [], []⟩ ⟨2025, 1, 2, 3, 4, 5⟩)
        ⟨⟨2025, 1, 3, 0, 0, 1⟩, true⟩ "m").1.fileOpen = some "AppLog_20250103.txt" ∧
    (runWorkerStep "AppLog" (openFileW "AppLog" ⟨none, "", [], []⟩ ⟨2025, 1, 2, 3, 4, 5⟩)
        ⟨⟨2025, 1, 3, 0, 0, 1⟩, true⟩ "m").1.currentDate = "20250103" ∧
    (runWorkerStep "AppLog" (openFileW "AppLog" ⟨none, "", [], []⟩ ⟨2025, 1, 2, 3, 4, 5⟩)
        ⟨⟨2025, 1, 3, 0, 0, 1⟩, true⟩ "m").2 = [WAction.sweepAsync] := by
  have h := rotation_success_updates_date_and_spawns_sweep "AppLog"
    (openFileW "AppLog" ⟨none, "", [], []⟩ ⟨2025, 1, 2, 3, 4, 5⟩)
    ⟨⟨2025, 1, 3, 0, 0, 1⟩, true⟩ "m" (by decide) (by decide)
  refine ⟨?_, ?_, h.2.2.1⟩
  · rw [h.1]; decide
  · rw [h.2.1]; decide

/-- **C6.**  Whenever the worker persists a message (file already open for the
message's date, or a rotation whose open succeeds), the bytes appended to the
buffered writer are exactly the single line
`"[" ++ timestamp ++ "] " ++ msg ++ "\n"` — the rendered message embedded
verbatim, with no escaping — where the timestamp is the
`YYYY-MM-DD HH:MM:SS` rendering of the delivery clock; and the destination is
the open file, named `pfx ++ "_" ++ d ++ ".txt"` for `d = currentDate`, the
`YYYYMMDD` date on which `openFile` created it. -/
theorem persisted_line_shape_and_file_name (pfx : String) (st : WState)
    (env : MsgEnv) (msg : String)
    (hfile : st.fileOpen = none ∨ st.fileOpen = some (mkFileName pfx st.currentDate))
    (hok : env.openOk = true) :
    formatLine (timestampStr env.now) msg =
      "[" ++ timestampStr env.now ++ "] " ++ msg ++ "\n" ∧
    timestampStr env.now =
      pad4 env.now.year ++ "-" ++ pad2 env.now.month ++ "-" ++ pad2 env.now.day ++
        " " ++ pad2 env.now.hour ++ ":" ++ pad2 env.now.minute ++ ":" ++
        pad2 env.now.second ∧
    (¬(st.fileOpen = none ∨ dateStr8 env.now ≠ st.currentDate) →
      (runWorkerStep pfx st env msg).1.fileOpen =
        some (pfx ++ "_" ++ st.currentDate ++ ".txt") ∧
      (runWorkerStep pfx st env msg).1.currentDate = st.currentDate ∧
      (runWorkerStep pfx st env msg).1.buffer =
        st.buffer ++ ["[" ++ timestampStr env.now ++ "] " ++ msg ++ "\n"]) ∧
    ((st.fileOpen = none ∨ dateStr8 env.now ≠ st.currentDate) →
      (runWorkerStep pfx st env msg).1.fileOpen =
        some (pfx ++ "_" ++ dateStr8 env.now ++ ".txt") ∧
      (runWorkerStep pfx st env msg).1.currentDate = dateStr8 env.now ∧
      (runWorkerStep pfx st env msg).1.buffer =
        ["[" ++ timestampStr env.now ++ "] " ++ msg ++ "\n"]) := by
  refine ⟨rfl, rfl, ?_, ?_⟩
  · intro hrot
    have hfile' : st.fileOpen = some (mkFileName pfx st.currentDate) := by
      rcases hfile with h | h
      · exact absurd (Or.inl h) hrot
      · exact h
    simp only [runWorkerStep]
    rw [if_neg hrot]
    simp [hfile', mkFileName, formatLine]
  · intro hrot
    simp only [runWorkerStep]
    rw [if_pos hrot, hok]
    simp [openFileW, mkFileName, formatLine]

/-- Witness for C6: with the 2025-01-02 file open, a message on that date
(with an embedded newline, kept verbatim) is appended as exactly one formatted
line targeted at `AppLog_20250102.txt`. -/
theorem persisted_line_shape_and_file_name_witness :
    (runWorkerStep "AppLog" (openFileW "AppLog" ⟨none, "", [], []⟩ ⟨2025, 1, 2, 3, 4, 5⟩)
        ⟨⟨2025, 1, 2, 3, 4, 6⟩, true⟩ "a\nb").1.buffer =
      ["[2025-01-02 03:04:06] a\nb\n"] ∧
    (runWorkerStep "AppLog" (openFileW "AppLog" ⟨none, "", [], []⟩ ⟨2025, 1, 2, 3, 4, 5⟩)
        ⟨⟨2025, 1, 2, 3, 4, 6⟩, true⟩ "a\nb").1.fileOpen =
      some "AppLog_20250102.txt" := by
  have h := (persisted_line_shape_and_file_name "AppLog"
    (openFileW "AppLog" ⟨none, "", [], []⟩ ⟨2025, 1, 2, 3, 4, 5⟩)
    ⟨⟨2025, 1, 2, 3, 4, 6⟩, true⟩ "a\nb" (Or.inr (by decide)) (by decide)).2.2.1
    (by decide)
  obtain ⟨h1, -, h3⟩ := h
  constructor
  · rw [h3]; decide
  · rw [h1]; decide

/-- **C7.**  The queue is `make(chan string, 1000)`: fixed capacity 1000,
starting empty and open.  A send to an open channel with a free slot appends
the message at the tail, exactly once; a send to a full open channel leaves
the caller blocked — the message is neither dropped nor turned into an error
or panic for the caller; a receive delivers the oldest buffered message and
removes exactly it (FIFO, exactly-once); and once a receive frees a slot of a
full channel, the previously blocked send completes. -/
theorem queue_capacity_backpressure_fifo :
    msgChanInit.cap = 1000 ∧ msgChanInit.buf = [] ∧ msgChanInit.closed = false ∧
    (∀ ch m, ch.closed = false → ch.buf.length < ch.cap →
      chanSend ch m = SendResult.sent { ch with buf := ch.buf ++ [m] }) ∧
    (∀ ch m, ch.closed = false → ch.cap ≤ ch.buf.length →
      chanSend ch m = SendResult.blocked) ∧
    (∀ ch x ch2, chanRecv ch = some (x, ch2) →
      ch.buf = x :: ch2.buf ∧ ch2.cap = ch.cap ∧ ch2.closed = ch.closed) ∧
    (∀ ch m x ch2, ch.closed = false → 0 < ch.cap →
      chanRecv ch = some (x, ch2) → ch.buf.length = ch.cap →
      chanSend ch2 m = SendResult.sent { ch2 with buf := ch2.buf ++ [m] }) := by
  refine ⟨rfl, rfl, rfl, ?_, ?_, ?_, ?_⟩
  · intro ch m hcl hlt
    simp [chanSend, hcl, hlt]
  · intro ch m hcl hge
    simp [chanSend, hcl, Nat.not_lt.mpr hge]
  · intro ch x ch2 hr
    cases hbuf : ch.buf with
    | nil => simp [chanRecv, hbuf] at hr
    | cons y rest =>
      simp only [chanRecv, hbuf, Option.some.injEq, Prod.mk.injEq] at hr
      obtain ⟨hx, hch⟩ := hr
      subst hx
      subst hch
      exact ⟨rfl, rfl, rfl⟩
  · intro ch m x ch2 hcl hcap hr hfull
    cases hbuf : ch.buf with
    | nil => simp [chanRecv, hbuf] at hr
    | cons y rest =>
      simp only [chanRecv, hbuf, Option.some.injEq, Prod.mk.injEq] at hr
      obtain ⟨hx, hch⟩ := hr
      subst hch
      rw [hbuf] at hfull
      have hlt : rest.length < ch.cap := by
        simp only [List.length_cons] at hfull
        omega
      simp [chanSend, hcl, hlt]

/-- Witness for C7: a full 2-slot channel blocks the third send; after one
receive, the send completes at the tail. -/
theorem queue_capacity_backpressure_fifo_witness :
    chanSend { cap := 2, buf := ["a", "b"], closed := false } "c" =
      SendResult.blocked ∧
    chanRecv { cap := 2, buf := ["a", "b"], closed := false } =
      some ("a", { cap := 2, buf := ["b"], closed := false }) ∧
    chanSend { cap := 2, buf := ["b"], closed := false } "c" =
      SendResult.sent { cap := 2, buf := ["b", "c"], closed := false } := by
  have h := queue_capacity_backpressure_fifo
  refine ⟨h.2.2.2.2.1 { cap := 2, buf := ["a", "b"], closed := false } "c" rfl (by decide),
    by decide, ?_⟩
  have := h.2.2.2.2.2.2 { cap := 2, buf := ["a", "b"], closed := false } "c" "a"
    { cap := 2, buf := ["b"], closed := false } rfl (by decide) (by decide) (by decide)
  simpa using this

/-- **C8.**  `newLogFunc` is fail-fast: a failed `os.MkdirAll` panics with the
folder message, a failed initial `openFile` panics with the file message — in
neither case is a degraded stream returned — and with both succeeding it
returns the stream the emit/shutdown closures are bound to: the capacity-1000
queue, today's file open under its `YYYYMMDD` name, `currentDate` set, and
the construction-time sweep performed. -/
theorem newLogFunc_fail_fast (op : Bool) (t : DateTime) (pfx : String)
    (r : Int) (cut : String) (rd : Bool) (es : List DirEntry) :
    newLogFunc ⟨false, op, t⟩ pfx r cut rd es =
      Except.error "LogInit: cannot create folder" ∧
    newLogFunc ⟨true, false, t⟩ pfx r cut rd es =
      Except.error "LogInit: cannot create file" ∧
    newLogFunc ⟨true, true, t⟩ pfx r cut rd es =
      Except.ok
        { msgChan := msgChanInit,
          st := openFileW pfx ⟨none, "", [], []⟩ t,
          sweepDeleted := cleanOldLogs r pfx cut rd es } ∧
    (openFileW pfx ⟨none, "", [], []⟩ t).fileOpen =
      some (mkFileName pfx (dateStr8 t)) ∧
    (openFileW pfx ⟨none, "", [], []⟩ t).currentDate = dateStr8 t :=
  ⟨rfl, rfl, rfl, rfl, rfl⟩

/-- **C9.**  `defer l.wg.Done()` is registered first in `runWorker`, so Go's
LIFO `defer` discipline runs it last on every exit path — the normal
channel-closed return and the panic path through the recovery boundary alike;
the WaitGroup counter therefore reaches zero and `closeFn`'s `wg.Wait()`
returns rather than blocking forever. -/
theorem waitgroup_done_on_every_exit (panicked : Bool) :
    ExitAction.wgDone ∈ runWorkerExitPath panicked ∧
    (runWorkerExitPath panicked).getLast? = some ExitAction.wgDone ∧
    countDone (runWorkerExitPath panicked) = 1 ∧
    wgWaitReturns 1 (countDone (runWorkerExitPath panicked)) = true := by
  cases panicked <;> decide

/-- **C10.**  After `closeFn` has executed `close(l.msgChan)`, every further
`logFn` call evaluates a send on a closed channel: it panics in the calling
thread — it neither completes (so the message is not silently dropped into a
dead queue) nor blocks. -/
theorem emit_after_close_panics (ch : GoChan) (m : String) :
    chanSend (chanClose ch) m = SendResult.panicked ∧
    chanSend (chanClose ch) m ≠ SendResult.blocked ∧
    ∀ ch2, chanSend (chanClose ch) m ≠ SendResult.sent ch2 := by
  refine ⟨rfl, ?_, ?_⟩
  · intro h
    exact SendResult.noConfusion h
  · intro ch2 h
    exact SendResult.noConfusion h

/-- **C3, as stated, is false.**  With `retentionDays = 30` and cutoff
`20250130`, the sweep deletes `AppLog_20200101extra.txt`, a name that does
not match `{filePrefix}_{8-digit date}.{ext}` (extra characters between the
date and the extension): the deleted set is not exactly the matching files
below the cutoff. -/
theorem sweep_deletes_nonmatching_extra_chars_cex :
    cleanOldLogs 30 "AppLog" "20250130" true
        [⟨"AppLog_20200101extra.txt", false⟩] = ["AppLog_20200101extra.txt"] ∧
    specShape "AppLog" "AppLog_20200101extra.txt" = false := by decide

/-- **C3 (amended).**  If `retentionDays ≤ 0` the sweep deletes nothing;
otherwise it deletes exactly the entries passing the code's own per-entry
check (`removesEntry`) — which also admits some names outside the claimed
shape, see the counterexample.  For a well-formed name
`pfx ++ "_" ++ d ++ ".txt"` with an 8-digit `d` and an 8-digit cutoff, that
check holds iff `d` compares lexicographically — equivalently numerically,
the format being fixed-width `YYYYMMDD` — below the cutoff: the file dated
`today − (N+1)` (numerically below the cutoff `today − N`) is deleted, the
file dated `today − (N−1)` (numerically above it) is preserved. -/
theorem sweep_deletes_iff_date_below_cutoff (retentionDays : Int)
    (pfx cut d : String) (rd : Bool) (es : List DirEntry) (e : DirEntry)
    (hdir : e.isDir = false) (hname : e.name = pfx ++ "_" ++ d ++ ".txt")
    (hd8 : d.data.length = 8) (hdd : d.data.all isDigitCh = true)
    (hc8 : cut.data.length = 8) (hcd : cut.data.all isDigitCh = true) :
    (retentionDays ≤ 0 → cleanOldLogs retentionDays pfx cut rd es = []) ∧
    (0 < retentionDays → cleanOldLogs retentionDays pfx cut true es =
      (es.filter (removesEntry pfx cut)).map DirEntry.name) ∧
    (removesEntry pfx cut e = true ↔
      natOfDigits d.data < natOfDigits cut.data) := by
  have hl1 : ("_".data.length) = 1 := rfl
  have hl4 : (".txt".data.length) = 4 := rfl
  have hnd : e.name.data = (pfx.data ++ "_".data) ++ (d.data ++ ".txt".data) := by
    rw [hname]
    simp [String.data_append, List.append_assoc]
  refine ⟨?_, ?_, ?_⟩
  · intro h
    simp [cleanOldLogs, h]
  · intro h
    have h0 : ¬ retentionDays ≤ 0 := by omega
    simp [cleanOldLogs, h0]
  · have h2 : hasPrefixGo e.name.data (pfx ++ "_").data = true := by
      rw [hnd, String.data_append]
      exact hasPrefixGo_append _ _
    have h3 : hasSuffixGo e.name.data ".txt".data = true := by
      rw [hnd, ← List.append_assoc]
      exact hasSuffixGo_append _ _
    have hlen : e.name.data.length = pfx.data.length + 1 + 8 + 4 := by
      rw [hnd]
      simp [hl1, hl4, hd8]
    have h4 : decide (pfx.data.length + 1 + 8 + 4 ≤ e.name.data.length) = true := by
      simp only [decide_eq_true_eq]
      omega
    have h5 : (e.name.data.drop (pfx.data.length + 1)).take 8 = d.data := by
      rw [hnd, List.drop_left' (by simp [hl1]), List.take_left' hd8]
    have hrm : removesEntry pfx cut e = goStrLt d.data cut.data := by
      simp only [removesEntry, hdir, Bool.not_false, h2, h3, h4, h5, Bool.true_and]
    rw [hrm]
    exact goStrLt_iff_natOfDigits_lt d.data cut.data (by rw [hd8, hc8]) hdd hcd

/-- Witness for the amended C3: with cutoff `20250130` (retention 30 as of
2025-03-01), `AppLog_20250101.txt` is below the cutoff and deleted while
`AppLog_20250131.txt` is preserved; with `retentionDays = -1` nothing is
deleted. -/
theorem sweep_deletes_iff_date_below_cutoff_witness :
    cleanOldLogs (-1) "AppLog" "20250130" true
        [⟨"AppLog_20200101.txt", false⟩] = [] ∧
    cleanOldLogs 30 "AppLog" "20250130" true
        [⟨"AppLog_20250101.txt", false⟩, ⟨"AppLog_20250131.txt", false⟩] =
      ([⟨"AppLog_20250101.txt", false⟩, ⟨"AppLog_20250131.txt", false⟩].filter
          (removesEntry "AppLog" "20250130")).map DirEntry.name ∧
    (removesEntry "AppLog" "20250130" ⟨"AppLog_20250101.txt", false⟩ = true ↔
      natOfDigits "20250101".data < natOfDigits "20250130".data) ∧
    cleanOldLogs 30 "AppLog" "20250130" true
        [⟨"AppLog_20250101.txt", false⟩, ⟨"AppLog_20250131.txt", false⟩] =
      ["AppLog_20250101.txt"] := by
  have h1 := sweep_deletes_iff_date_below_cutoff (-1) "AppLog" "20250130" "20200101"
    true [⟨"AppLog_20200101.txt", false⟩] ⟨"AppLog_20200101.txt", false⟩
    rfl (by decide) (by decide) (by decide) (by decide) (by decide)
  have h2 := sweep_deletes_iff_date_below_cutoff 30 "AppLog" "20250130" "20250101"
    true [⟨"AppLog_20250101.txt", false⟩, ⟨"AppLog_20250131.txt", false⟩]
    ⟨"AppLog_20250101.txt", false⟩
    rfl (by decide) (by decide) (by decide) (by decide) (by decide)
  exact ⟨h1.1 (by norm_num), h2.2.1 (by norm_num), h2.2.2, by decide⟩

/-- **C4, as stated, is false.**  `cleanOldLogs` never checks that the 8
characters after the prefix and underscore are decimal digits:
`AppLog_0000000a.txt`, whose date slot is `"0000000a"`, is not of the claimed
shape yet is deleted, its slice comparing lexicographically below the
cutoff. -/
theorem sweep_deletes_nondigit_name_cex :
    cleanOldLogs 30 "AppLog" "20250130" true
        [⟨"AppLog_0000000a.txt", false⟩] = ["AppLog_0000000a.txt"] ∧
    specShape "AppLog" "AppLog_0000000a.txt" = false := by decide

/-- **C4 (amended).**  The sweep does skip directories, and skips every name
lacking the `pfx ++ "_"` prefix, lacking the `".txt"` suffix, or shorter than
`len(pfx) + 13` — such an entry is never passed to `os.Remove`; but that is
the whole check: the claimed skipping of names with non-digit characters in
the 8-character date slot, or with extra characters between the date and the
extension, is not performed (see the counterexample). -/
theorem sweep_skips_dirs_and_unshaped_names (r : Int) (pfx cut : String)
    (rd : Bool) (e : DirEntry)
    (h : e.isDir = true ∨ hasPrefixGo e.name.data (pfx ++ "_").data = false ∨
         hasSuffixGo e.name.data ".txt".data = false ∨
         e.name.data.length < pfx.data.length + 13) :
    removesEntry pfx cut e = false ∧
    cleanOldLogs r pfx cut rd [e] = [] := by
  have hrm : removesEntry pfx cut e = false := by
    unfold removesEntry
    rcases h with h | h | h | h
    · rw [h]
      simp
    · rw [h]
      simp
    · rw [h]
      simp
    · have hlt : decide (pfx.data.length + 1 + 8 + 4 ≤ e.name.data.length) = false := by
        simp only [decide_eq_false_iff_not]
        omega
      rw [hlt]
      simp
  refine ⟨hrm, ?_⟩
  by_cases hr : r ≤ 0
  · simp [cleanOldLogs, hr]
  · by_cases hrd : rd = false
    · simp [cleanOldLogs, hr, hrd]
    · simp [cleanOldLogs, hr, hrd, List.filter, hrm]

/-- Witness for the amended C4: a directory whose name even matches the shape
is skipped by the sweep. -/
theorem sweep_skips_dirs_and_unshaped_names_witness :
    removesEntry "AppLog" "20250130" ⟨"AppLog_19990101.txt", true⟩ = false ∧
    cleanOldLogs 30 "AppLog" "20250130" true
        [⟨"AppLog_19990101.txt", true⟩] = [] :=
  sweep_skips_dirs_and_unshaped_names 30 "AppLog" "20250130" true
    ⟨"AppLog_19990101.txt", true⟩ (Or.inl rfl)

end LogFile
